import Mathlib

/-!
Shallow embedding of the cosquin-rock-lineup core logic
(src/lib/data.ts, src/lib/url-state.ts, src/components/TimeAxis.tsx,
src/components/EventBlock.tsx, src/components/TimetableApp.tsx)
together with proofs of the specified properties.

JavaScript numbers appearing in the schedule-assembly code are modelled as
integers, except where `Math.min()` / `Math.max()` over a possibly-empty
spread can produce `Infinity` / `-Infinity`; those values are modelled by
the three-way type `JsNum`.
-/

namespace CosquinRock

/-! ## Time Normalizer (src/lib/data.ts) -/

def GRID_START_HOUR : Int := 14

def GRID_START_MINUTES : Int := GRID_START_HOUR * 60

def UTC_OFFSET_HOURS : Int := -3

/-- `utcToLocalMinutes` from src/lib/data.ts, as a function of the UTC
clock-hour and clock-minute of the instant (`date.getUTCHours()`,
`date.getUTCMinutes()`). -/
def utcToLocalMinutes (utcHours utcMinutes : Int) : Int :=
  let localHours := utcHours + UTC_OFFSET_HOURS
  let localHours := if localHours < 0 then localHours + 24 else localHours
  let totalMinutes := localHours * 60 + utcMinutes
  if totalMinutes < GRID_START_MINUTES then totalMinutes + 24 * 60
  else totalMinutes

/-- `normalizeMinutes` from src/lib/data.ts. -/
def normalizeMinutes (minutes : Int) : Int :=
  minutes - GRID_START_MINUTES

/-- The local clock-hour of a UTC instant: UTC hour plus the fixed offset,
wrapped into `[0, 24)` exactly as the source does it. -/
def localClockHour (utcHours : Int) : Int :=
  let h := utcHours + UTC_OFFSET_HOURS
  if h < 0 then h + 24 else h

/-! ## Time formatters (src/lib/data.ts and src/components/TimeAxis.tsx) -/

/-- `n.toString().padStart(2, '0')` for a nonnegative integer. -/
def pad2 (n : Nat) : String :=
  (if n < 10 then "0" else "") ++ toString n

/-- `formatTime` from src/lib/data.ts (on nonnegative inputs, where JS
`Math.floor` of the quotient is Nat division). -/
def formatTime (normalizedMinutes : Nat) : String :=
  let totalMinutes := normalizedMinutes + GRID_START_MINUTES.toNat
  let hours := (totalMinutes / 60) % 24
  let minutes := totalMinutes % 60
  pad2 hours ++ ":" ++ pad2 minutes

/-- `formatHour` from src/components/TimeAxis.tsx.  Note the source adds
back `13 * 60`, with the comment "add back grid base (14:00)". -/
def formatHour (normalizedMin : Nat) : String :=
  let totalMin := normalizedMin + 13 * 60
  let h := (totalMin / 60) % 24
  let m := totalMin % 60
  pad2 h ++ ":" ++ pad2 m

end CosquinRock

namespace CosquinRock

/-! ## JS numbers with infinities, for `Math.min(...xs)` / `Math.max(...xs)` -/

inductive JsNum where
  | fin (n : Int)
  | posInf
  | negInf
deriving DecidableEq, Repr

def JsNum.minJ : JsNum → JsNum → JsNum
  | .posInf, b => b
  | .negInf, _ => .negInf
  | .fin a, .posInf => .fin a
  | .fin _, .negInf => .negInf
  | .fin a, .fin b => .fin (min a b)

def JsNum.maxJ : JsNum → JsNum → JsNum
  | .negInf, b => b
  | .posInf, _ => .posInf
  | .fin a, .negInf => .fin a
  | .fin _, .posInf => .posInf
  | .fin a, .fin b => .fin (max a b)

def JsNum.isFinite : JsNum → Bool
  | .fin _ => true
  | _ => false

/-- `Math.min(...l)`: `Infinity` on the empty spread. -/
def mathMinSpread (l : List Int) : JsNum :=
  l.foldr (fun x acc => JsNum.minJ (.fin x) acc) .posInf

/-- `Math.max(...l)`: `-Infinity` on the empty spread. -/
def mathMaxSpread (l : List Int) : JsNum :=
  l.foldr (fun x acc => JsNum.maxJ (.fin x) acc) .negInf

/-- `Math.floor(x / 60) * 60` extended to the infinities. -/
def floorHour : JsNum → JsNum
  | .fin n => .fin (Int.fdiv n 60 * 60)
  | .posInf => .posInf
  | .negInf => .negInf

/-- `Math.ceil(x / 60) * 60` extended to the infinities
(`Math.ceil(n / 60) = -Math.floor(-n / 60)` on integers). -/
def ceilHour : JsNum → JsNum
  | .fin n => .fin (-(Int.fdiv (-n) 60) * 60)
  | .posInf => .posInf
  | .negInf => .negInf

/-! ## Event model and Schedule Assembler (src/lib/data.ts) -/

/-- The fields of a `FestivalEvent` consumed by `getDaySchedules`
(id and artist carried along; the `Date` fields and `duration` are not
used by the schedule assembler). -/
structure FestivalEvent where
  id : String
  artist : String
  day : Int
  stage : String
  startMinutes : Int
  endMinutes : Int
deriving DecidableEq, Repr

structure StageColumn where
  name : String
  events : List FestivalEvent
deriving DecidableEq, Repr

structure DaySchedule where
  day : Int
  label : String
  date : String
  stages : List StageColumn
  startMinute : JsNum
  endMinute : JsNum
deriving DecidableEq, Repr

/-- `[...new Set(l)]`: distinct elements, in first-occurrence order. -/
def jsSetDedup {α : Type} [DecidableEq α] : List α → List α
  | [] => []
  | x :: xs => x :: jsSetDedup (xs.filter (fun y => y ≠ x))
termination_by l => l.length
decreasing_by
  simp only [List.length_cons]
  exact Nat.lt_succ_of_le (List.length_filter_le _ _)

/-- `Array.prototype.indexOf`: index of the first occurrence, `-1` if absent. -/
def jsIndexOf (l : List String) (s : String) : Int :=
  match l.findIdx? (fun t => t = s) with
  | some i => (i : Int)
  | none => -1

/-- `STAGE_ORDER` from src/lib/data.ts. -/
def STAGE_ORDER : List String :=
  ["Norte", "Sur", "Montaña", "Boomerang", "Paraguay",
   "La Casita del Blues", "La Plaza Electronic Stage", "Sorpresa"]

/-- The numeric sort key of the stage comparator:
`STAGE_ORDER.indexOf(a)` mapped to `99` when `-1`. -/
def stageSortKey (s : String) : Int :=
  let i := jsIndexOf STAGE_ORDER s
  if i = -1 then 99 else i

/-- The stage comparator `(ai === -1 ? 99 : ai) - (bi === -1 ? 99 : bi)`,
as the Boolean "sorts no later than" relation of the (stable) JS sort. -/
def stageLE (a b : String) : Bool :=
  decide (stageSortKey a ≤ stageSortKey b)

/-- The event comparator `a.startMinutes - b.startMinutes`, as the Boolean
"sorts no later than" relation of the (stable) JS sort. -/
def eventLE (a b : FestivalEvent) : Bool :=
  decide (a.startMinutes ≤ b.startMinutes)

/-- The body of the arrow function mapped over the day list inside
`getDaySchedules` (src/lib/data.ts): the schedule built for one day.  JS
`Array.prototype.sort` is required to be stable, so it is modelled by
`List.mergeSort`. -/
def buildDaySchedule (events : List FestivalEvent) (day : Int) : DaySchedule :=
  let dayEvents := events.filter (fun e => e.day = day)
  let stageNames := (jsSetDedup (dayEvents.map (fun e => e.stage))).mergeSort stageLE
  let stages : List StageColumn := stageNames.map (fun name =>
    { name := name
      events := (dayEvents.filter (fun e => e.stage = name)).mergeSort eventLE })
  let allMinutes := dayEvents.flatMap (fun e => [e.startMinutes, e.endMinutes])
  let startMinute := floorHour (mathMinSpread allMinutes)
  let endMinute := ceilHour (mathMaxSpread allMinutes)
  { day := day
    label := if day = 1 then "Sábado 14" else "Domingo 15"
    date := if day = 1 then "2026-02-14" else "2026-02-15"
    stages := stages
    startMinute := startMinute
    endMinute := endMinute }

/-- `getDaySchedules` from src/lib/data.ts, as a function of the parsed
event list (the source obtains the list from `parseEvents()`). -/
def getDaySchedules (events : List FestivalEvent) : List DaySchedule :=
  let days : List Int := [1, 2]
  days.map (buildDaySchedule events)

/-! ## URL state (src/lib/url-state.ts) and selection toggling
(src/components/TimetableApp.tsx, src/components/EventBlock.tsx) -/

/-- A URL, at the granularity the claims need: everything before the query
string, plus the ordered query parameter list. -/
structure JsURL where
  origin : String
  pathname : String
  params : List (String × String)
deriving DecidableEq, Repr

/-- `URLSearchParams.prototype.get`: value of the first parameter with the
given name, or null. -/
def jsParamsGet (ps : List (String × String)) (k : String) : Option String :=
  (ps.find? (fun p => p.1 = k)).map (fun p => p.2)

/-- `URLSearchParams.prototype.delete`: removes all parameters with the
given name. -/
def jsParamsDelete (ps : List (String × String)) (k : String) :
    List (String × String) :=
  ps.filter (fun p => p.1 ≠ k)

/-- `URLSearchParams.prototype.set`: replaces the value of the first
parameter with the given name and removes the others; appends when the
name is absent. -/
def jsParamsSet : List (String × String) → String → String →
    List (String × String)
  | [], k, v => [(k, v)]
  | p :: ps, k, v =>
    if p.1 = k then (k, v) :: jsParamsDelete ps k
    else p :: jsParamsSet ps k v

/-- `[...ids].join(',')`. -/
def jsJoinComma : List String → String
  | [] => ""
  | [x] => x
  | x :: xs => x ++ "," ++ jsJoinComma xs

/-- `String.prototype.split(',')` at the character level. -/
def splitCommaChars : List Char → List (List Char)
  | [] => [[]]
  | c :: cs =>
    if c = ',' then [] :: splitCommaChars cs
    else
      match splitCommaChars cs with
      | [] => [[c]]
      | p :: ps => (c :: p) :: ps

/-- `s.split(',')`. -/
def jsSplitComma (s : String) : List String :=
  (splitCommaChars s.data).map (fun cs => ⟨cs⟩)

/-- `updateURL` from src/lib/url-state.ts: the effect on the current URL
of encoding a selection state (`ids` in JS-`Set` iteration order). -/
def updateURL (u : JsURL) (ids : List String)
    (readOnly showOnlySelected : Bool) : JsURL :=
  let ps := u.params
  let ps :=
    if ids.length > 0 then jsParamsSet ps "ids" (jsJoinComma ids)
    else jsParamsDelete ps "ids"
  let ps :=
    if readOnly then jsParamsSet ps "view" "shared"
    else jsParamsDelete ps "view"
  let ps :=
    if showOnlySelected && ids.length > 0 then jsParamsSet ps "filter" "selected"
    else jsParamsDelete ps "filter"
  { u with params := ps }

/-- `getSelectedIdsFromURL` from src/lib/url-state.ts (`!ids` is true for
both an absent parameter and the empty string; `filter(Boolean)` drops
empty tokens; `new Set(...)` deduplicates, keeping first occurrences). -/
def getSelectedIdsFromURL (u : JsURL) : List String :=
  match jsParamsGet u.params "ids" with
  | none => []
  | some s =>
    if s = "" then []
    else jsSetDedup ((jsSplitComma s).filter (fun t => t ≠ ""))

/-- `isReadOnlyFromURL` from src/lib/url-state.ts. -/
def isReadOnlyFromURL (u : JsURL) : Bool :=
  jsParamsGet u.params "view" = some "shared"

/-- `isShowOnlySelectedFromURL` from src/lib/url-state.ts. -/
def isShowOnlySelectedFromURL (u : JsURL) : Bool :=
  jsParamsGet u.params "filter" = some "selected"

/-- `toggleArtist` from src/components/TimetableApp.tsx, on the selection
set in JS-`Set` iteration order: `delete` removes the element, `add`
appends at the end. -/
def toggleArtist (prev : List String) (id : String) : List String :=
  if id ∈ prev then prev.erase id else prev ++ [id]

/-- The click path of an event block
(src/components/EventBlock.tsx: `onClick={() => !readOnly && onToggle(event.id)}`,
with the button additionally `disabled={readOnly}`): the resulting
selection set. -/
def eventBlockClick (readOnly : Bool) (selected : List String)
    (id : String) : List String :=
  if readOnly then selected else toggleArtist selected id

end CosquinRock

namespace CosquinRock

/-! ## C1: Time Normalizer -/

/-- C1: for every UTC instant whose local clock-hour lies in `[14, 23]`,
`normalizeMinutes ∘ utcToLocalMinutes` returns `hour * 60 + minute - 840`,
a value in `[0, 600)`; for local clock-hour in `[0, 13]` it returns
`(hour + 24) * 60 + minute - 840`, a value `≥ 600`; a local time of
exactly 14:00 maps to 0, and exactly 00:00 maps to 1440 before
normalization (600 after). -/
theorem time_normalizer_correct (H M : Int)
    (hH0 : 0 ≤ H) (hH : H < 24) (hM0 : 0 ≤ M) (hM : M < 60) :
    (14 ≤ localClockHour H → localClockHour H ≤ 23 →
      normalizeMinutes (utcToLocalMinutes H M) = localClockHour H * 60 + M - 840 ∧
      0 ≤ localClockHour H * 60 + M - 840 ∧
      localClockHour H * 60 + M - 840 < 600) ∧
    (localClockHour H ≤ 13 →
      normalizeMinutes (utcToLocalMinutes H M) = (localClockHour H + 24) * 60 + M - 840 ∧
      600 ≤ (localClockHour H + 24) * 60 + M - 840) ∧
    (localClockHour H = 14 → M = 0 →
      normalizeMinutes (utcToLocalMinutes H M) = 0) ∧
    (localClockHour H = 0 → M = 0 →
      utcToLocalMinutes H M = 1440 ∧
      normalizeMinutes (utcToLocalMinutes H M) = 600) := by
  simp only [localClockHour, utcToLocalMinutes, normalizeMinutes,
    GRID_START_MINUTES, GRID_START_HOUR, UTC_OFFSET_HOURS]
  split_ifs <;> omega

theorem time_normalizer_correct_witness :
    (normalizeMinutes (utcToLocalMinutes 17 30) = localClockHour 17 * 60 + 30 - 840) ∧
    (normalizeMinutes (utcToLocalMinutes 4 0) = (localClockHour 4 + 24) * 60 + 0 - 840) :=
  ⟨((time_normalizer_correct 17 30 (by decide) (by decide) (by decide)
      (by decide)).1 (by decide) (by decide)).1,
   ((time_normalizer_correct 4 0 (by decide) (by decide) (by decide)
      (by decide)).2.1 (by decide)).1⟩

/-! ## C5: hour labels on the time axis -/

/-- C5: the time-axis label function `formatHour` adds back `13 * 60`
minutes rather than the 840-minute grid-start anchor its own comment
names, so the normalized minute 0 is labelled "13:00" instead of
"14:00" — one hour behind `formatTime` from src/lib/data.ts, which does
the claimed inverse of the Time Normalizer. -/
theorem formatHour_off_by_one_hour :
    formatHour 0 = "13:00" ∧ formatTime 0 = "14:00" ∧
    formatHour 660 = "00:00" ∧ formatTime 660 = "01:00" := by
  decide

/-! ## C8: read-only mode blocks toggling -/

/-- C8: when `readOnly` is true, activating an event block leaves the
selection set unchanged, for every event id and every prior selection. -/
theorem eventBlock_readonly_click (selected : List String) (id : String) :
    eventBlockClick true selected id = selected := rfl

/-! ## C9: toggling twice restores the selection -/

/-- C9: applying `toggleArtist` to the same id twice returns the selection
set to exactly the original membership (indeed to a permutation of the
original JS-`Set` iteration order). -/
theorem toggleArtist_twice (s : List String) (id : String) (h : s.Nodup) :
    List.Perm (toggleArtist (toggleArtist s id) id) s ∧
    ∀ x, x ∈ toggleArtist (toggleArtist s id) id ↔ x ∈ s := by
  have hp : List.Perm (toggleArtist (toggleArtist s id) id) s := by
    by_cases hid : id ∈ s
    · unfold toggleArtist
      rw [if_pos hid, if_neg (h.not_mem_erase)]
      exact (List.perm_append_singleton _ _).trans (List.perm_cons_erase hid).symm
    · unfold toggleArtist
      rw [if_neg hid, if_pos (by simp : id ∈ s ++ [id]),
        List.erase_append_right _ hid, List.erase_cons_head, List.append_nil]
  exact ⟨hp, fun x => hp.mem_iff⟩

theorem toggleArtist_twice_witness :
    List.Perm (toggleArtist (toggleArtist ["a", "b"] "c") "c") ["a", "b"] :=
  (toggleArtist_twice ["a", "b"] "c" (by decide)).1

end CosquinRock


namespace CosquinRock

/-! ## Query-parameter lemmas for the URL codec -/

theorem filterKey_delete_self (ps : List (String × String)) (k : String) :
    (jsParamsDelete ps k).filter (fun p => p.1 = k) = [] := by
  refine List.filter_eq_nil_iff.mpr (fun a ha => ?_)
  have h2 := (List.mem_filter.mp ha).2
  simp only [decide_eq_true_eq] at h2 ⊢
  exact h2

theorem filterKey_delete_other (ps : List (String × String)) (k k' : String)
    (h : k' ≠ k) :
    (jsParamsDelete ps k).filter (fun p => p.1 = k') =
      ps.filter (fun p => p.1 = k') := by
  induction ps with
  | nil => rfl
  | cons p ps ih =>
    by_cases hp : p.1 = k
    · have hq : ¬ p.1 = k' := by rw [hp]; exact Ne.symm h
      have e1 : jsParamsDelete (p :: ps) k = jsParamsDelete ps k := by
        simp [jsParamsDelete, hp]
      have e2 : (p :: ps).filter (fun q => q.1 = k') =
          ps.filter (fun q => q.1 = k') := by
        simp [List.filter_cons, hq]
      rw [e1, ih, e2]
    · have e1 : jsParamsDelete (p :: ps) k = p :: jsParamsDelete ps k := by
        simp [jsParamsDelete, hp]
      rw [e1]
      by_cases hq : p.1 = k'
      · have e2 : ∀ l : List (String × String),
            (p :: l).filter (fun q => q.1 = k') =
              p :: l.filter (fun q => q.1 = k') := fun l => by
          simp [List.filter_cons, hq]
        rw [e2, e2, ih]
      · have e2 : ∀ l : List (String × String),
            (p :: l).filter (fun q => q.1 = k') =
              l.filter (fun q => q.1 = k') := fun l => by
          simp [List.filter_cons, hq]
        rw [e2, e2, ih]

theorem filterKey_set_self (ps : List (String × String)) (k v : String) :
    (jsParamsSet ps k v).filter (fun p => p.1 = k) = [(k, v)] := by
  induction ps with
  | nil => simp [jsParamsSet]
  | cons p ps ih =>
    by_cases hp : p.1 = k
    · simp only [jsParamsSet]
      rw [if_pos hp]
      have : ((k, v) :: jsParamsDelete ps k).filter (fun q => q.1 = k) =
          (k, v) :: (jsParamsDelete ps k).filter (fun q => q.1 = k) := by
        simp [List.filter_cons]
      rw [this, filterKey_delete_self]
    · simp only [jsParamsSet]
      rw [if_neg hp]
      have : (p :: jsParamsSet ps k v).filter (fun q => q.1 = k) =
          (jsParamsSet ps k v).filter (fun q => q.1 = k) := by
        simp [List.filter_cons, hp]
      rw [this, ih]

theorem filterKey_set_other (ps : List (String × String)) (k k' v : String)
    (h : k' ≠ k) :
    (jsParamsSet ps k v).filter (fun p => p.1 = k') =
      ps.filter (fun p => p.1 = k') := by
  induction ps with
  | nil => simp [jsParamsSet, Ne.symm h]
  | cons p ps ih =>
    by_cases hp : p.1 = k
    · have hq : ¬ p.1 = k' := by rw [hp]; exact Ne.symm h
      simp only [jsParamsSet]
      rw [if_pos hp]
      have e1 : ((k, v) :: jsParamsDelete ps k).filter (fun q => q.1 = k') =
          (jsParamsDelete ps k).filter (fun q => q.1 = k') := by
        simp [List.filter_cons, Ne.symm h]
      have e2 : (p :: ps).filter (fun q => q.1 = k') =
          ps.filter (fun q => q.1 = k') := by
        simp [List.filter_cons, hq]
      rw [e1, e2, filterKey_delete_other ps k k' h]
    · simp only [jsParamsSet]
      rw [if_neg hp]
      by_cases hq : p.1 = k'
      · have e2 : ∀ l : List (String × String),
            (p :: l).filter (fun q => q.1 = k') =
              p :: l.filter (fun q => q.1 = k') := fun l => by
          simp [List.filter_cons, hq]
        rw [e2, e2, ih]
      · have e2 : ∀ l : List (String × String),
            (p :: l).filter (fun q => q.1 = k') =
              l.filter (fun q => q.1 = k') := fun l => by
          simp [List.filter_cons, hq]
        rw [e2, e2, ih]

theorem get_eq_filter_head (ps : List (String × String)) (k : String) :
    jsParamsGet ps k =
      ((ps.filter (fun p => p.1 = k)).head?).map (fun p => p.2) := by
  induction ps with
  | nil => rfl
  | cons p ps ih =>
    by_cases h : p.1 = k
    · simp [jsParamsGet, List.find?_cons_of_pos, h, List.filter_cons]
    · simp only [jsParamsGet] at ih
      have e1 : List.find? (fun q => q.1 = k) (p :: ps) =
          List.find? (fun q => q.1 = k) ps :=
        List.find?_cons_of_neg _ (by simpa using h)
      have e2 : (p :: ps).filter (fun q => q.1 = k) =
          ps.filter (fun q => q.1 = k) := by
        simp [List.filter_cons, h]
      simp only [jsParamsGet, e1, e2, ih]

theorem delete_eq_self_of_filter (ps : List (String × String)) (k : String)
    (h : ps.filter (fun p => p.1 = k) = []) : jsParamsDelete ps k = ps := by
  unfold jsParamsDelete
  refine List.filter_eq_self.mpr (fun a ha => ?_)
  have := List.filter_eq_nil_iff.mp h a ha
  simpa using this

theorem set_eq_self_of_filter (ps : List (String × String)) (k v : String)
    (h : ps.filter (fun p => p.1 = k) = [(k, v)]) : jsParamsSet ps k v = ps := by
  induction ps with
  | nil => simp at h
  | cons p ps ih =>
    by_cases hp : p.1 = k
    · have hfc : (p :: ps).filter (fun q => q.1 = k) =
          p :: ps.filter (fun q => q.1 = k) := by
        simp [List.filter_cons, hp]
      rw [hfc] at h
      injection h with h1 h2
      simp only [jsParamsSet]
      rw [if_pos hp, delete_eq_self_of_filter ps k h2, h1]
    · have hfc : (p :: ps).filter (fun q => q.1 = k) =
          ps.filter (fun q => q.1 = k) := by
        simp [List.filter_cons, hp]
      rw [hfc] at h
      simp only [jsParamsSet]
      rw [if_neg hp, ih h]

end CosquinRock

namespace CosquinRock

theorem get_set_self (ps : List (String × String)) (k v : String) :
    jsParamsGet (jsParamsSet ps k v) k = some v := by
  rw [get_eq_filter_head, filterKey_set_self]; rfl

theorem get_set_other (ps : List (String × String)) (k k' v : String)
    (h : k' ≠ k) :
    jsParamsGet (jsParamsSet ps k v) k' = jsParamsGet ps k' := by
  rw [get_eq_filter_head, filterKey_set_other ps k k' v h, ← get_eq_filter_head]

theorem get_delete_self (ps : List (String × String)) (k : String) :
    jsParamsGet (jsParamsDelete ps k) k = none := by
  rw [get_eq_filter_head, filterKey_delete_self]; rfl

theorem get_delete_other (ps : List (String × String)) (k k' : String)
    (h : k' ≠ k) :
    jsParamsGet (jsParamsDelete ps k) k' = jsParamsGet ps k' := by
  rw [get_eq_filter_head, filterKey_delete_other ps k k' h, ← get_eq_filter_head]

/-! ## Characterization of the three parameters written by `updateURL` -/

theorem updateURL_filter_ids (u : JsURL) (ids : List String) (ro so : Bool) :
    (updateURL u ids ro so).params.filter (fun p => p.1 = "ids") =
      if 0 < ids.length then [("ids", jsJoinComma ids)] else [] := by
  simp only [updateURL]
  by_cases c1 : ids.length > 0 <;> cases ro <;> cases so <;>
    simp [c1, filterKey_set_self, filterKey_delete_self,
      filterKey_set_other _ _ _ _ (by decide : ("ids" : String) ≠ "view"),
      filterKey_delete_other _ _ _ (by decide : ("ids" : String) ≠ "view"),
      filterKey_set_other _ _ _ _ (by decide : ("ids" : String) ≠ "filter"),
      filterKey_delete_other _ _ _ (by decide : ("ids" : String) ≠ "filter")]

theorem updateURL_filter_view (u : JsURL) (ids : List String) (ro so : Bool) :
    (updateURL u ids ro so).params.filter (fun p => p.1 = "view") =
      if ro then [("view", "shared")] else [] := by
  simp only [updateURL]
  by_cases c1 : ids.length > 0 <;> cases ro <;> cases so <;>
    simp [c1, filterKey_set_self, filterKey_delete_self,
      filterKey_set_other _ _ _ _ (by decide : ("view" : String) ≠ "ids"),
      filterKey_delete_other _ _ _ (by decide : ("view" : String) ≠ "ids"),
      filterKey_set_other _ _ _ _ (by decide : ("view" : String) ≠ "filter"),
      filterKey_delete_other _ _ _ (by decide : ("view" : String) ≠ "filter")]

theorem updateURL_filter_filter (u : JsURL) (ids : List String) (ro so : Bool) :
    (updateURL u ids ro so).params.filter (fun p => p.1 = "filter") =
      if so ∧ 0 < ids.length then [("filter", "selected")] else [] := by
  simp only [updateURL]
  by_cases c1 : ids.length > 0 <;> cases ro <;> cases so <;>
    simp [c1, filterKey_set_self, filterKey_delete_self,
      filterKey_set_other _ _ _ _ (by decide : ("filter" : String) ≠ "ids"),
      filterKey_delete_other _ _ _ (by decide : ("filter" : String) ≠ "ids"),
      filterKey_set_other _ _ _ _ (by decide : ("filter" : String) ≠ "view"),
      filterKey_delete_other _ _ _ (by decide : ("filter" : String) ≠ "view")]

theorem updateURL_filter_frame (u : JsURL) (ids : List String) (ro so : Bool)
    (k : String) (h1 : k ≠ "ids") (h2 : k ≠ "view") (h3 : k ≠ "filter") :
    (updateURL u ids ro so).params.filter (fun p => p.1 = k) =
      u.params.filter (fun p => p.1 = k) := by
  simp only [updateURL]
  by_cases c1 : ids.length > 0 <;> cases ro <;> cases so <;>
    simp [c1, filterKey_set_other _ _ _ _ h1, filterKey_delete_other _ _ _ h1,
      filterKey_set_other _ _ _ _ h2, filterKey_delete_other _ _ _ h2,
      filterKey_set_other _ _ _ _ h3, filterKey_delete_other _ _ _ h3]

end CosquinRock

namespace CosquinRock

/-! ## Join / split round trip -/

theorem splitCommaChars_no_comma (cs : List Char) (h : ',' ∉ cs) :
    splitCommaChars cs = [cs] := by
  induction cs with
  | nil => rfl
  | cons c cs ih =>
    have hc : ¬ (c = ',') := fun e => h (e ▸ List.mem_cons_self c cs)
    rw [splitCommaChars, if_neg hc, ih (fun hm => h (List.mem_cons_of_mem c hm))]

theorem splitCommaChars_append (a r : List Char) (h : ',' ∉ a) :
    splitCommaChars (a ++ ',' :: r) = a :: splitCommaChars r := by
  induction a with
  | nil =>
    rw [List.nil_append, splitCommaChars, if_pos rfl]
  | cons c a ih =>
    have hc : ¬ (c = ',') := fun e => h (e ▸ List.mem_cons_self c a)
    rw [List.cons_append, splitCommaChars, if_neg hc,
      ih (fun hm => h (List.mem_cons_of_mem c hm))]

theorem jsSplitComma_jsJoinComma (l : List String) (hne : l ≠ [])
    (hc : ∀ s ∈ l, ',' ∉ s.data) : jsSplitComma (jsJoinComma l) = l := by
  induction l with
  | nil => exact absurd rfl hne
  | cons x xs ih =>
    cases xs with
    | nil =>
      show jsSplitComma (jsJoinComma [x]) = [x]
      rw [show jsJoinComma [x] = x from rfl]
      unfold jsSplitComma
      rw [splitCommaChars_no_comma x.data (hc x (List.mem_cons_self x []))]
      rfl
    | cons y ys =>
      have hj : jsJoinComma (x :: y :: ys) = x ++ "," ++ jsJoinComma (y :: ys) := rfl
      unfold jsSplitComma
      rw [hj]
      have hdata : (x ++ "," ++ jsJoinComma (y :: ys)).data =
          x.data ++ ',' :: (jsJoinComma (y :: ys)).data := by
        simp [String.data_append]
      rw [hdata,
        splitCommaChars_append x.data _ (hc x (List.mem_cons_self x (y :: ys)))]
      have ihx := ih (by simp) (fun s hs => hc s (List.mem_cons_of_mem x hs))
      unfold jsSplitComma at ihx
      simp only [List.map_cons, ihx]

theorem jsJoinComma_ne_empty (l : List String) (hne : l ≠ [])
    (h : ∀ s ∈ l, s ≠ "") : jsJoinComma l ≠ "" := by
  cases l with
  | nil => exact absurd rfl hne
  | cons x xs =>
    cases xs with
    | nil => exact h x (List.mem_cons_self x [])
    | cons y ys =>
      intro he
      have hd := congrArg String.data he
      rw [show jsJoinComma (x :: y :: ys) = x ++ "," ++ jsJoinComma (y :: ys)
        from rfl] at hd
      simp [String.data_append] at hd

theorem jsSetDedup_of_nodup {α : Type} [DecidableEq α] :
    ∀ l : List α, l.Nodup → jsSetDedup l = l
  | [], _ => by rw [jsSetDedup]
  | x :: xs, h => by
    rw [jsSetDedup]
    have hx : x ∉ xs := (List.nodup_cons.mp h).1
    have hf : xs.filter (fun y => y ≠ x) = xs :=
      List.filter_eq_self.mpr (fun a ha => by
        simp only [decide_eq_true_eq]
        exact fun e => hx (e ▸ ha))
    rw [hf, jsSetDedup_of_nodup xs (List.nodup_cons.mp h).2]

end CosquinRock

namespace CosquinRock

/-- `updateURL` is a no-op on a URL whose three encoded parameters already
hold exactly the encoding of the given state. -/
theorem updateURL_eq_self (X : JsURL) (ids : List String) (ro so : Bool)
    (h1 : X.params.filter (fun p => p.1 = "ids") =
      if 0 < ids.length then [("ids", jsJoinComma ids)] else [])
    (h2 : X.params.filter (fun p => p.1 = "view") =
      if ro then [("view", "shared")] else [])
    (h3 : X.params.filter (fun p => p.1 = "filter") =
      if so ∧ 0 < ids.length then [("filter", "selected")] else []) :
    updateURL X ids ro so = X := by
  obtain ⟨o, pn, ps⟩ := X
  simp only at h1 h2 h3
  have s1 : (if ids.length > 0 then jsParamsSet ps "ids" (jsJoinComma ids)
      else jsParamsDelete ps "ids") = ps := by
    by_cases c1 : 0 < ids.length
    · rw [if_pos c1]
      exact set_eq_self_of_filter _ _ _ (by rw [h1, if_pos c1])
    · rw [if_neg c1]
      exact delete_eq_self_of_filter _ _ (by rw [h1, if_neg c1])
  have s2 : (if ro then jsParamsSet ps "view" "shared"
      else jsParamsDelete ps "view") = ps := by
    cases ro
    · rw [if_neg (by simp)]
      refine delete_eq_self_of_filter _ _ ?_
      rw [h2]
      simp
    · rw [if_pos rfl]
      refine set_eq_self_of_filter _ _ _ ?_
      rw [h2]
      simp
  have s3 : (if so && decide (ids.length > 0) then jsParamsSet ps "filter" "selected"
      else jsParamsDelete ps "filter") = ps := by
    cases so
    · rw [if_neg (by simp)]
      refine delete_eq_self_of_filter _ _ ?_
      rw [h3]
      simp
    · by_cases c1 : 0 < ids.length
      · rw [if_pos (by simpa using c1)]
        refine set_eq_self_of_filter _ _ _ ?_
        rw [h3]
        simp [c1]
      · rw [if_neg (by simpa using c1)]
        refine delete_eq_self_of_filter _ _ ?_
        rw [h3]
        simp [c1]
  show JsURL.mk o pn _ = JsURL.mk o pn ps
  simp only [updateURL, s1, s2, s3]

end CosquinRock

namespace CosquinRock

theorem updateURL_get_ids (u : JsURL) (ids : List String) (ro so : Bool) :
    jsParamsGet (updateURL u ids ro so).params "ids" =
      if 0 < ids.length then some (jsJoinComma ids) else none := by
  rw [get_eq_filter_head, updateURL_filter_ids]
  by_cases c : 0 < ids.length <;> simp [c]

theorem updateURL_get_view (u : JsURL) (ids : List String) (ro so : Bool) :
    jsParamsGet (updateURL u ids ro so).params "view" =
      if ro then some "shared" else none := by
  rw [get_eq_filter_head, updateURL_filter_view]
  cases ro <;> simp

theorem updateURL_get_filter (u : JsURL) (ids : List String) (ro so : Bool) :
    jsParamsGet (updateURL u ids ro so).params "filter" =
      if so ∧ 0 < ids.length then some "selected" else none := by
  rw [get_eq_filter_head, updateURL_filter_filter]
  by_cases c : so ∧ 0 < ids.length <;> simp [c]

/-! ## C2: URL codec round trip and idempotence -/

/-- C2: for every reachable selection state (distinct, nonempty,
comma-free identifiers; `showOnlySelected` false whenever the selection is
empty), decoding the query parameters written by `updateURL` recovers the
state exactly, and running `updateURL` a second time on its own output
leaves the URL unchanged (encoding is idempotent). -/
theorem url_codec_roundtrip (u : JsURL) (ids : List String) (ro so : Bool)
    (hnd : ids.Nodup) (hne : ∀ s ∈ ids, s ≠ "")
    (hcf : ∀ s ∈ ids, ',' ∉ s.data) (hinv : ids = [] → so = false) :
    getSelectedIdsFromURL (updateURL u ids ro so) = ids ∧
    isReadOnlyFromURL (updateURL u ids ro so) = ro ∧
    isShowOnlySelectedFromURL (updateURL u ids ro so) = so ∧
    updateURL (updateURL u ids ro so) ids ro so = updateURL u ids ro so := by
  refine ⟨?_, ?_, ?_, ?_⟩
  · by_cases c : 0 < ids.length
    · have hne' : ids ≠ [] := by
        intro e
        rw [e] at c
        simp at c
      have hJ : jsJoinComma ids ≠ "" := jsJoinComma_ne_empty ids hne' hne
      have hgi : jsParamsGet (updateURL u ids ro so).params "ids" =
          some (jsJoinComma ids) := by
        rw [updateURL_get_ids, if_pos c]
      have hdec : getSelectedIdsFromURL (updateURL u ids ro so) =
          if jsJoinComma ids = "" then []
          else jsSetDedup ((jsSplitComma (jsJoinComma ids)).filter
            (fun t => t ≠ "")) := by
        unfold getSelectedIdsFromURL
        rw [hgi]
      rw [hdec, if_neg hJ, jsSplitComma_jsJoinComma ids hne' hcf,
        List.filter_eq_self.mpr (fun a ha => by simpa using hne a ha)]
      exact jsSetDedup_of_nodup ids hnd
    · have hid0 : ids = [] := by
        cases ids with
        | nil => rfl
        | cons a l => simp at c
      have hgi : jsParamsGet (updateURL u ids ro so).params "ids" = none := by
        rw [updateURL_get_ids, if_neg c]
      have hdec : getSelectedIdsFromURL (updateURL u ids ro so) = [] := by
        unfold getSelectedIdsFromURL
        rw [hgi]
      rw [hdec, hid0]
  · unfold isReadOnlyFromURL
    rw [updateURL_get_view]
    cases ro <;> simp
  · unfold isShowOnlySelectedFromURL
    rw [updateURL_get_filter]
    by_cases hid0 : ids = []
    · have hso := hinv hid0
      subst hso
      simp [hid0]
    · have c : 0 < ids.length := List.length_pos.mpr hid0
      cases so <;> simp [c]
  · exact updateURL_eq_self _ ids ro so (updateURL_filter_ids u ids ro so)
      (updateURL_filter_view u ids ro so) (updateURL_filter_filter u ids ro so)

theorem url_codec_roundtrip_witness :
    getSelectedIdsFromURL
        (updateURL ⟨"https://example.test", "/", [("foo", "bar")]⟩
          ["a", "b"] true true) = ["a", "b"] ∧
    isReadOnlyFromURL
        (updateURL ⟨"https://example.test", "/", [("foo", "bar")]⟩
          ["a", "b"] true true) = true ∧
    isShowOnlySelectedFromURL
        (updateURL ⟨"https://example.test", "/", [("foo", "bar")]⟩
          ["a", "b"] true true) = true ∧
    updateURL
        (updateURL ⟨"https://example.test", "/", [("foo", "bar")]⟩
          ["a", "b"] true true) ["a", "b"] true true =
      updateURL ⟨"https://example.test", "/", [("foo", "bar")]⟩
        ["a", "b"] true true :=
  url_codec_roundtrip ⟨"https://example.test", "/", [("foo", "bar")]⟩
    ["a", "b"] true true (by decide) (by decide) (by decide) (by decide)

end CosquinRock

namespace CosquinRock

/-! ## C3: exact parameter emission rules of the encoder -/

/-- C3: `updateURL` omits the `ids` parameter exactly when the selected
set is empty (it is never written as an empty string), writes
`view=shared` iff `readOnly` is true, and writes `filter=selected` iff
`showOnlySelected` is true and the selected set is non-empty; in each
other case the parameter is absent. -/
theorem updateURL_param_emission (u : JsURL) (ids : List String)
    (ro so : Bool) (hne : ∀ s ∈ ids, s ≠ "") :
    (jsParamsGet (updateURL u ids ro so).params "ids" = none ↔ ids = []) ∧
    (∀ v, jsParamsGet (updateURL u ids ro so).params "ids" = some v →
      v ≠ "") ∧
    (jsParamsGet (updateURL u ids ro so).params "view" =
      if ro then some "shared" else none) ∧
    (jsParamsGet (updateURL u ids ro so).params "filter" =
      if so ∧ ids ≠ [] then some "selected" else none) := by
  refine ⟨?_, ?_, updateURL_get_view u ids ro so, ?_⟩
  · rw [updateURL_get_ids]
    by_cases c : 0 < ids.length
    · rw [if_pos c]
      constructor
      · intro h
        exact absurd h (by simp)
      · intro h
        rw [h] at c
        simp at c
    · rw [if_neg c]
      have : ids = [] := by
        cases ids with
        | nil => rfl
        | cons a l => simp at c
      simp [this]
  · intro v hv
    rw [updateURL_get_ids] at hv
    by_cases c : 0 < ids.length
    · rw [if_pos c] at hv
      have hne' : ids ≠ [] := by
        intro e
        rw [e] at c
        simp at c
      have := jsJoinComma_ne_empty ids hne' hne
      intro e
      rw [e] at hv
      exact this (Option.some.inj hv)
    · rw [if_neg c] at hv
      exact absurd hv (by simp)
  · rw [updateURL_get_filter]
    by_cases hid0 : ids = []
    · have : ¬ 0 < ids.length := by simp [hid0]
      simp [hid0, this]
    · have c : 0 < ids.length := List.length_pos.mpr hid0
      simp [hid0, c]

theorem updateURL_param_emission_witness :
    (jsParamsGet
        (updateURL ⟨"https://example.test", "/", []⟩ ["a"] false true).params
        "ids" = none ↔ (["a"] : List String) = []) ∧
    (jsParamsGet
        (updateURL ⟨"https://example.test", "/", []⟩ ["a"] false true).params
        "view" = if false then some "shared" else none) ∧
    (jsParamsGet
        (updateURL ⟨"https://example.test", "/", []⟩ ["a"] false true).params
        "filter" = if (true : Bool) ∧ (["a"] : List String) ≠ []
          then some "selected" else none) ∧
    ("a" : String) ≠ "" :=
  ⟨(updateURL_param_emission ⟨"https://example.test", "/", []⟩ ["a"] false true
      (by decide)).1,
   (updateURL_param_emission ⟨"https://example.test", "/", []⟩ ["a"] false true
      (by decide)).2.2.1,
   (updateURL_param_emission ⟨"https://example.test", "/", []⟩ ["a"] false true
      (by decide)).2.2.2,
   (updateURL_param_emission ⟨"https://example.test", "/", []⟩ ["a"] false true
      (by decide)).2.1 "a" (by decide)⟩

/-! ## C10: frame effect of `updateURL` -/

/-- C10: `updateURL` touches only the `ids`, `view` and `filter` query
parameters: every parameter under any other name is left exactly as it
was, and the origin and pathname of the URL are unchanged. -/
theorem updateURL_frame_effect (u : JsURL) (ids : List String)
    (ro so : Bool) (k : String)
    (h1 : k ≠ "ids") (h2 : k ≠ "view") (h3 : k ≠ "filter") :
    (updateURL u ids ro so).params.filter (fun p => p.1 = k) =
      u.params.filter (fun p => p.1 = k) ∧
    jsParamsGet (updateURL u ids ro so).params k = jsParamsGet u.params k ∧
    (updateURL u ids ro so).origin = u.origin ∧
    (updateURL u ids ro so).pathname = u.pathname :=
  ⟨updateURL_filter_frame u ids ro so k h1 h2 h3,
   by rw [get_eq_filter_head, updateURL_filter_frame u ids ro so k h1 h2 h3,
        ← get_eq_filter_head],
   rfl, rfl⟩

theorem updateURL_frame_effect_witness :
    (updateURL ⟨"https://example.test", "/p", [("foo", "bar")]⟩
        ["a"] true false).params.filter (fun p => p.1 = "foo") =
      ([("foo", "bar")] : List (String × String)).filter
        (fun p => p.1 = "foo") ∧
    jsParamsGet (updateURL ⟨"https://example.test", "/p", [("foo", "bar")]⟩
        ["a"] true false).params "foo" =
      jsParamsGet [("foo", "bar")] "foo" ∧
    (updateURL ⟨"https://example.test", "/p", [("foo", "bar")]⟩
        ["a"] true false).origin = "https://example.test" ∧
    (updateURL ⟨"https://example.test", "/p", [("foo", "bar")]⟩
        ["a"] true false).pathname = "/p" :=
  updateURL_frame_effect ⟨"https://example.test", "/p", [("foo", "bar")]⟩
    ["a"] true false "foo" (by decide) (by decide) (by decide)

end CosquinRock

namespace CosquinRock

/-! ## C4: behavior of the schedule assembler on an event-less day -/

/-- C4 (counterexample): with a single day-1 event, `getDaySchedules`
still returns an entry for day 2, but its `startMinute` is `Infinity` and
its `endMinute` is `-Infinity` — `Math.min()` / `Math.max()` over the
empty spread — not a finite default range as claimed. -/
theorem getDaySchedules_empty_day_counterexample :
    ((getDaySchedules
        [{ id := "bandalos-chinos-d1", artist := "Bandalos Chinos", day := 1,
           stage := "Norte", startMinutes := 510, endMinutes := 570 }]).get
        ⟨1, by decide⟩).startMinute = JsNum.posInf ∧
    ((getDaySchedules
        [{ id := "bandalos-chinos-d1", artist := "Bandalos Chinos", day := 1,
           stage := "Norte", startMinutes := 510, endMinutes := 570 }]).get
        ⟨1, by decide⟩).endMinute = JsNum.negInf ∧
    ((getDaySchedules
        [{ id := "bandalos-chinos-d1", artist := "Bandalos Chinos", day := 1,
           stage := "Norte", startMinutes := 510, endMinutes := 570 }]).get
        ⟨1, by decide⟩).startMinute.isFinite = false := by
  decide

/-- C4 (amended): `getDaySchedules` returns one `DaySchedule` per known
festival day {1, 2} even when a day has zero events, and for such an
empty day the stages list is empty; however `startMinute` and `endMinute`
are then `Infinity` and `-Infinity` (the values `Math.min()` /
`Math.max()` produce on an empty spread), not a finite default range. -/
theorem getDaySchedules_empty_day (events : List FestivalEvent) (day : Int)
    (hday : day = 1 ∨ day = 2)
    (hempty : events.filter (fun e => e.day = day) = []) :
    (getDaySchedules events).length = 2 ∧
    buildDaySchedule events day ∈ getDaySchedules events ∧
    (buildDaySchedule events day).stages = [] ∧
    (buildDaySchedule events day).startMinute = JsNum.posInf ∧
    (buildDaySchedule events day).endMinute = JsNum.negInf := by
  refine ⟨by simp [getDaySchedules], ?_, ?_, ?_, ?_⟩
  · rcases hday with h | h <;> simp [getDaySchedules, h]
  · simp [buildDaySchedule, hempty, jsSetDedup]
  · simp [buildDaySchedule, hempty, mathMinSpread, floorHour]
  · simp [buildDaySchedule, hempty, mathMaxSpread, ceilHour]

theorem getDaySchedules_empty_day_witness :
    (getDaySchedules ([] : List FestivalEvent)).length = 2 ∧
    buildDaySchedule [] 2 ∈ getDaySchedules [] ∧
    (buildDaySchedule ([] : List FestivalEvent) 2).stages = [] ∧
    (buildDaySchedule ([] : List FestivalEvent) 2).startMinute = JsNum.posInf ∧
    (buildDaySchedule ([] : List FestivalEvent) 2).endMinute = JsNum.negInf :=
  getDaySchedules_empty_day [] 2 (Or.inr rfl) rfl

end CosquinRock

namespace CosquinRock

/-! ## C6: hour-aligned bounds of a non-empty day -/

theorem mathMinSpread_cons (x : Int) (l : List Int) :
    mathMinSpread (x :: l) = JsNum.minJ (.fin x) (mathMinSpread l) := rfl

theorem mathMaxSpread_cons (x : Int) (l : List Int) :
    mathMaxSpread (x :: l) = JsNum.maxJ (.fin x) (mathMaxSpread l) := rfl

theorem mathMinSpread_spec (l : List Int) (h : l ≠ []) :
    ∃ v, mathMinSpread l = JsNum.fin v ∧ v ∈ l ∧ ∀ x ∈ l, v ≤ x := by
  induction l with
  | nil => exact absurd rfl h
  | cons a l ih =>
    cases l with
    | nil => exact ⟨a, rfl, by simp, by simp⟩
    | cons b m =>
      obtain ⟨v, hv, hmem, hle⟩ := ih (by simp)
      refine ⟨min a v, ?_, ?_, ?_⟩
      · rw [mathMinSpread_cons, hv]
        rfl
      · rcases le_total a v with hav | hva
        · simp [min_eq_left hav]
        · rw [min_eq_right hva]
          exact List.mem_cons_of_mem a hmem
      · intro x hx
        rcases List.mem_cons.mp hx with rfl | hx1
        · exact min_le_left _ _
        · exact le_trans (min_le_right _ _) (hle x hx1)

theorem mathMaxSpread_spec (l : List Int) (h : l ≠ []) :
    ∃ v, mathMaxSpread l = JsNum.fin v ∧ v ∈ l ∧ ∀ x ∈ l, x ≤ v := by
  induction l with
  | nil => exact absurd rfl h
  | cons a l ih =>
    cases l with
    | nil => exact ⟨a, rfl, by simp, by simp⟩
    | cons b m =>
      obtain ⟨v, hv, hmem, hle⟩ := ih (by simp)
      refine ⟨max a v, ?_, ?_, ?_⟩
      · rw [mathMaxSpread_cons, hv]
        rfl
      · rcases le_total a v with hav | hva
        · rw [max_eq_right hav]
          exact List.mem_cons_of_mem a hmem
        · simp [max_eq_left hva]
      · intro x hx
        rcases List.mem_cons.mp hx with rfl | hx1
        · exact le_max_left _ _
        · exact le_trans (hle x hx1) (le_max_right _ _)

theorem buildDaySchedule_startMinute (events : List FestivalEvent) (day : Int) :
    (buildDaySchedule events day).startMinute =
      floorHour (mathMinSpread ((events.filter (fun e => e.day = day)).flatMap
        (fun e => [e.startMinutes, e.endMinutes]))) := rfl

theorem buildDaySchedule_endMinute (events : List FestivalEvent) (day : Int) :
    (buildDaySchedule events day).endMinute =
      ceilHour (mathMaxSpread ((events.filter (fun e => e.day = day)).flatMap
        (fun e => [e.startMinutes, e.endMinutes]))) := rfl

end CosquinRock

namespace CosquinRock

/-- C6: for every day whose event list is non-empty (and whose events have
well-formed durations), the schedule's `startMinute` is the hour-floor of
the minimum event `startMinutes` and `endMinute` is the hour-ceiling of
the maximum event `endMinutes`; both are finite multiples of 60, and they
bound every event of the day. -/
theorem daySchedule_bounds (events : List FestivalEvent) (day : Int)
    (hne : events.filter (fun e => e.day = day) ≠ [])
    (hvalid : ∀ e ∈ events.filter (fun e => e.day = day),
      e.startMinutes ≤ e.endMinutes) :
    (buildDaySchedule events day).startMinute =
      floorHour (mathMinSpread ((events.filter (fun e => e.day = day)).map
        (fun e => e.startMinutes))) ∧
    (buildDaySchedule events day).endMinute =
      ceilHour (mathMaxSpread ((events.filter (fun e => e.day = day)).map
        (fun e => e.endMinutes))) ∧
    ∃ s t : Int,
      (buildDaySchedule events day).startMinute = JsNum.fin s ∧
      (buildDaySchedule events day).endMinute = JsNum.fin t ∧
      60 ∣ s ∧ 60 ∣ t ∧
      ∀ e ∈ events.filter (fun e => e.day = day),
        s ≤ e.startMinutes ∧ e.endMinutes ≤ t := by
  have hallne : (events.filter (fun e => e.day = day)).flatMap
      (fun e => [e.startMinutes, e.endMinutes]) ≠ [] := by
    cases hDE : events.filter (fun e => e.day = day) with
    | nil => exact absurd hDE hne
    | cons e0 rest => simp [List.flatMap_cons]
  have hstartsne : (events.filter (fun e => e.day = day)).map
      (fun e => e.startMinutes) ≠ [] := by simpa using hne
  have hendsne : (events.filter (fun e => e.day = day)).map
      (fun e => e.endMinutes) ≠ [] := by simpa using hne
  obtain ⟨va, hva, hva_mem, hva_le⟩ := mathMinSpread_spec _ hallne
  obtain ⟨vb, hvb, hvb_mem, hvb_le⟩ := mathMaxSpread_spec _ hallne
  obtain ⟨vs, hvs, hvs_mem, hvs_le⟩ := mathMinSpread_spec _ hstartsne
  obtain ⟨ve, hve, hve_mem, hve_le⟩ := mathMaxSpread_spec _ hendsne
  have hav : va = vs := by
    refine le_antisymm ?_ ?_
    · obtain ⟨e, he, hfe⟩ := List.mem_map.mp hvs_mem
      exact hfe ▸ hva_le _ (List.mem_flatMap.mpr ⟨e, he, by simp⟩)
    · obtain ⟨e, he, hx⟩ := List.mem_flatMap.mp hva_mem
      have hs : vs ≤ e.startMinutes :=
        hvs_le _ (List.mem_map.mpr ⟨e, he, rfl⟩)
      rcases (by simpa using hx : va = e.startMinutes ∨ va = e.endMinutes)
        with h | h
      · exact h ▸ hs
      · exact h ▸ le_trans hs (hvalid e he)
  have hbv : vb = ve := by
    refine le_antisymm ?_ ?_
    · obtain ⟨e, he, hx⟩ := List.mem_flatMap.mp hvb_mem
      have hs : e.endMinutes ≤ ve :=
        hve_le _ (List.mem_map.mpr ⟨e, he, rfl⟩)
      rcases (by simpa using hx : vb = e.startMinutes ∨ vb = e.endMinutes)
        with h | h
      · exact h ▸ le_trans (hvalid e he) hs
      · exact h ▸ hs
    · obtain ⟨e, he, hfe⟩ := List.mem_map.mp hve_mem
      exact hfe ▸ hvb_le _ (List.mem_flatMap.mpr ⟨e, he, by simp⟩)
  refine ⟨?_, ?_, Int.fdiv va 60 * 60, -(Int.fdiv (-vb) 60) * 60,
    ?_, ?_, ?_, ?_, ?_⟩
  · rw [buildDaySchedule_startMinute, hva, hvs, hav]
  · rw [buildDaySchedule_endMinute, hvb, hve, hbv]
  · rw [buildDaySchedule_startMinute, hva]
    rfl
  · rw [buildDaySchedule_endMinute, hvb]
    rfl
  · exact dvd_mul_left 60 _
  · exact dvd_mul_left 60 _
  · intro e he
    constructor
    · have hfl : Int.fdiv va 60 * 60 ≤ va := by
        rw [Int.fdiv_eq_ediv va (by norm_num : (0 : Int) ≤ 60)]
        omega
      exact le_trans hfl (hva_le _ (List.mem_flatMap.mpr ⟨e, he, by simp⟩))
    · have hcl : vb ≤ -(Int.fdiv (-vb) 60) * 60 := by
        rw [Int.fdiv_eq_ediv (-vb) (by norm_num : (0 : Int) ≤ 60)]
        omega
      exact le_trans (hvb_le _ (List.mem_flatMap.mpr ⟨e, he, by simp⟩)) hcl

theorem daySchedule_bounds_witness :
    (buildDaySchedule [{ id := "x-d1", artist := "X", day := 1, stage := "Norte", startMinutes := 510, endMinutes := 575 }] 1).startMinute =
      floorHour (mathMinSpread ((([{ id := "x-d1", artist := "X", day := 1, stage := "Norte", startMinutes := 510, endMinutes := 575 }] : List FestivalEvent).filter (fun e => e.day = 1)).map (fun e => e.startMinutes))) ∧
    (buildDaySchedule [{ id := "x-d1", artist := "X", day := 1, stage := "Norte", startMinutes := 510, endMinutes := 575 }] 1).endMinute =
      ceilHour (mathMaxSpread ((([{ id := "x-d1", artist := "X", day := 1, stage := "Norte", startMinutes := 510, endMinutes := 575 }] : List FestivalEvent).filter (fun e => e.day = 1)).map (fun e => e.endMinutes))) :=
  ⟨(daySchedule_bounds [{ id := "x-d1", artist := "X", day := 1, stage := "Norte", startMinutes := 510, endMinutes := 575 }] 1 (by decide) (by decide)).1,
   (daySchedule_bounds [{ id := "x-d1", artist := "X", day := 1, stage := "Norte", startMinutes := 510, endMinutes := 575 }] 1 (by decide) (by decide)).2.1⟩

end CosquinRock


namespace CosquinRock

/-! ## C7: stage ordering and per-column event ordering -/

theorem stageLE_trans : ∀ a b c : String, stageLE a b → stageLE b c → stageLE a c := by
  intro a b c hab hbc
  simp only [stageLE, decide_eq_true_eq] at hab hbc ⊢
  omega

theorem stageLE_total : ∀ a b : String, stageLE a b || stageLE b a := by
  intro a b
  simp only [stageLE]
  rcases le_total (stageSortKey a) (stageSortKey b) with h | h <;> simp [h]

theorem eventLE_trans :
    ∀ a b c : FestivalEvent, eventLE a b → eventLE b c → eventLE a c := by
  intro a b c hab hbc
  simp only [eventLE, decide_eq_true_eq] at hab hbc ⊢
  omega

theorem eventLE_total : ∀ a b : FestivalEvent, eventLE a b || eventLE b a := by
  intro a b
  simp only [eventLE]
  rcases le_total a.startMinutes b.startMinutes with h | h <;> simp [h]

theorem buildDaySchedule_stages (events : List FestivalEvent) (day : Int) :
    (buildDaySchedule events day).stages =
      ((jsSetDedup ((events.filter (fun e => e.day = day)).map
        (fun e => e.stage))).mergeSort stageLE).map
        (fun name =>
          { name := name
            events := ((events.filter (fun e => e.day = day)).filter
              (fun e => e.stage = name)).mergeSort eventLE }) := rfl

theorem buildDaySchedule_stages_names (events : List FestivalEvent) (day : Int) :
    (buildDaySchedule events day).stages.map (fun c => c.name) =
      (jsSetDedup ((events.filter (fun e => e.day = day)).map
        (fun e => e.stage))).mergeSort stageLE := by
  rw [buildDaySchedule_stages, List.map_map]
  have hco : ((fun c : StageColumn => c.name) ∘ (fun name : String =>
      ({ name := name
         events := ((events.filter (fun e => e.day = day)).filter
           (fun e => e.stage = name)).mergeSort eventLE } : StageColumn))) =
      id := rfl
  rw [hco, List.map_id]

theorem stageSortKey_of_unlisted (s : String)
    (h : jsIndexOf STAGE_ORDER s = -1) : stageSortKey s = 99 := by
  simp [stageSortKey, h]

/-- C7: the stage columns of a day are the distinct stage names of that
day's events in a deterministic order: sorted by the fixed priority key
(listed stages in curated order by their `STAGE_ORDER` index, all
unlisted stages after them with key 99), with the unlisted stages keeping
their first-discovery order, and with every column's events sorted
ascending by `startMinutes`. -/
theorem stage_ordering (events : List FestivalEvent) (day : Int) :
    List.Perm ((buildDaySchedule events day).stages.map (fun c => c.name))
      (jsSetDedup ((events.filter (fun e => e.day = day)).map
        (fun e => e.stage))) ∧
    ((buildDaySchedule events day).stages.map (fun c => c.name)).Pairwise
      (fun a b => stageSortKey a ≤ stageSortKey b) ∧
    ((buildDaySchedule events day).stages.map (fun c => c.name)).filter
        (fun s => jsIndexOf STAGE_ORDER s = -1) =
      (jsSetDedup ((events.filter (fun e => e.day = day)).map
        (fun e => e.stage))).filter
        (fun s => jsIndexOf STAGE_ORDER s = -1) ∧
    ∀ c ∈ (buildDaySchedule events day).stages,
      c.events.Pairwise (fun a b => a.startMinutes ≤ b.startMinutes) := by
  refine ⟨?_, ?_, ?_, ?_⟩
  · rw [buildDaySchedule_stages_names]
    exact List.mergeSort_perm _ _
  · rw [buildDaySchedule_stages_names]
    exact (List.sorted_mergeSort stageLE_trans stageLE_total _).imp
      (fun h => by simpa [stageLE] using h)
  · rw [buildDaySchedule_stages_names]
    have hpw : ((jsSetDedup ((events.filter (fun e => e.day = day)).map
        (fun e => e.stage))).filter
        (fun s => jsIndexOf STAGE_ORDER s = -1)).Pairwise
        (fun a b => stageLE a b) := by
      refine List.pairwise_of_forall_mem_list (fun a ha b hb => ?_)
      have hA := (List.mem_filter.mp ha).2
      have hB := (List.mem_filter.mp hb).2
      simp only [decide_eq_true_eq] at hA hB
      simp [stageLE, stageSortKey_of_unlisted a hA, stageSortKey_of_unlisted b hB]
    have hsub : List.Sublist
        ((jsSetDedup ((events.filter (fun e => e.day = day)).map
          (fun e => e.stage))).filter
          (fun s => jsIndexOf STAGE_ORDER s = -1))
        ((jsSetDedup ((events.filter (fun e => e.day = day)).map
          (fun e => e.stage))).mergeSort stageLE) :=
      List.sublist_mergeSort stageLE_trans stageLE_total hpw
        (List.filter_sublist _)
    have hFF : (((jsSetDedup ((events.filter (fun e => e.day = day)).map
        (fun e => e.stage))).filter
        (fun s => jsIndexOf STAGE_ORDER s = -1)).filter
        (fun s => jsIndexOf STAGE_ORDER s = -1)) =
        ((jsSetDedup ((events.filter (fun e => e.day = day)).map
          (fun e => e.stage))).filter
          (fun s => jsIndexOf STAGE_ORDER s = -1)) :=
      List.filter_eq_self.mpr (fun a ha => (List.mem_filter.mp ha).2)
    have hsub2 := hsub.filter (fun s => decide (jsIndexOf STAGE_ORDER s = -1))
    rw [hFF] at hsub2
    have hperm := (List.mergeSort_perm (jsSetDedup
        ((events.filter (fun e => e.day = day)).map (fun e => e.stage)))
        stageLE).filter (fun s => decide (jsIndexOf STAGE_ORDER s = -1))
    exact (hsub2.eq_of_length hperm.length_eq.symm).symm
  · intro c hc
    rw [buildDaySchedule_stages] at hc
    obtain ⟨nm, hnm, rfl⟩ := List.mem_map.mp hc
    exact (List.sorted_mergeSort eventLE_trans eventLE_total _).imp
      (fun h => by simpa [eventLE] using h)

theorem stage_ordering_witness :
    List.Perm ((buildDaySchedule [{ id := "a-d1", artist := "A", day := 1, stage := "Zeta", startMinutes := 500, endMinutes := 560 }, { id := "b-d1", artist := "B", day := 1, stage := "Norte", startMinutes := 520, endMinutes := 580 }, { id := "c-d1", artist := "C", day := 1, stage := "Alpha", startMinutes := 400, endMinutes := 450 }] 1).stages.map (fun c => c.name))
      (jsSetDedup ((([{ id := "a-d1", artist := "A", day := 1, stage := "Zeta", startMinutes := 500, endMinutes := 560 }, { id := "b-d1", artist := "B", day := 1, stage := "Norte", startMinutes := 520, endMinutes := 580 }, { id := "c-d1", artist := "C", day := 1, stage := "Alpha", startMinutes := 400, endMinutes := 450 }] : List FestivalEvent).filter (fun e => e.day = 1)).map (fun e => e.stage))) ∧
    ((buildDaySchedule [{ id := "a-d1", artist := "A", day := 1, stage := "Zeta", startMinutes := 500, endMinutes := 560 }, { id := "b-d1", artist := "B", day := 1, stage := "Norte", startMinutes := 520, endMinutes := 580 }, { id := "c-d1", artist := "C", day := 1, stage := "Alpha", startMinutes := 400, endMinutes := 450 }] 1).stages.map (fun c => c.name)).filter (fun s => jsIndexOf STAGE_ORDER s = -1) =
      (jsSetDedup ((([{ id := "a-d1", artist := "A", day := 1, stage := "Zeta", startMinutes := 500, endMinutes := 560 }, { id := "b-d1", artist := "B", day := 1, stage := "Norte", startMinutes := 520, endMinutes := 580 }, { id := "c-d1", artist := "C", day := 1, stage := "Alpha", startMinutes := 400, endMinutes := 450 }] : List FestivalEvent).filter (fun e => e.day = 1)).map (fun e => e.stage))).filter (fun s => jsIndexOf STAGE_ORDER s = -1) :=
  ⟨(stage_ordering [{ id := "a-d1", artist := "A", day := 1, stage := "Zeta", startMinutes := 500, endMinutes := 560 }, { id := "b-d1", artist := "B", day := 1, stage := "Norte", startMinutes := 520, endMinutes := 580 }, { id := "c-d1", artist := "C", day := 1, stage := "Alpha", startMinutes := 400, endMinutes := 450 }] 1).1,
   (stage_ordering [{ id := "a-d1", artist := "A", day := 1, stage := "Zeta", startMinutes := 500, endMinutes := 560 }, { id := "b-d1", artist := "B", day := 1, stage := "Norte", startMinutes := 520, endMinutes := 580 }, { id := "c-d1", artist := "C", day := 1, stage := "Alpha", startMinutes := 400, endMinutes := 450 }] 1).2.2.1⟩

end CosquinRock
